import Mathlib

/-!
Verification of the QuantumPostProcessing post-processing pipeline.

The development shallowly embeds the three source modules:
  * `route_storer.py` — the equirectangular projector (`__equi_rect_project`),
    the arrow construction of `__add_lines`, and `create_graph`;
  * `post_processing.py` — the aggregation driver (`average`, `best`,
    `failed_occurences`, `visualise_deliveries`, `post_process`);
  * `graph_storer.py` — the pivot step of `save_heatmap` / `save_contour_plot`.

Python floats are modelled as real numbers where trigonometry is involved
(the projector) and as rationals where the claims are about exact arithmetic
(the aggregation tables).  Python `dict` lookup that can raise `KeyError`,
and pandas operations that can raise, are modelled with `Option`.
-/

namespace QPP

/-! ### Projector: `route_storer.__equi_rect_project` -/

/-- Earth radius constant `r = 6371` from `__equi_rect_project`. -/
def earthRadius : ℝ := 6371

/-- Hardcoded reference latitude `centre_point_deg` (approximate centre of Perth). -/
def centrePointDeg : ℝ := -31.952258602714696

/-- `np.radians`: degrees to radians. -/
noncomputable def deg2rad (d : ℝ) : ℝ := d * (Real.pi / 180)

/-- `__equi_rect_project latitudes longitudes`: returns
`(r * latitudes_radians, r * longitudes_radians * cos(center_latitude_radians))`,
i.e. the pair `(projected latitudes, projected longitudes)`, elementwise over
the input arrays (numpy broadcasting = `List.map`). -/
noncomputable def equiRectProject (latitudes longitudes : List ℝ) : List ℝ × List ℝ :=
  (latitudes.map (fun l => earthRadius * deg2rad l),
   longitudes.map (fun l => earthRadius * deg2rad l * Real.cos (deg2rad centrePointDeg)))

/-! ### Claims C1, C9, C10 about the projector -/

/-- C1: for same-length inputs the projector acts elementwise with
`y = R * lat_rad` and `x = R * lon_rad * cos(ref_lat_rad)`, `R = 6371`,
and empty inputs give empty outputs. -/
theorem equiRectProject_elementwise (lats lons : List ℝ)
    (h : lats.length = lons.length) :
    (equiRectProject lats lons).1.length = lats.length ∧
    (equiRectProject lats lons).2.length = lons.length ∧
    (∀ i : ℕ,
      (equiRectProject lats lons).1.get? i
        = (lats.get? i).map (fun la => earthRadius * deg2rad la) ∧
      (equiRectProject lats lons).2.get? i
        = (lons.get? i).map
            (fun lo => earthRadius * deg2rad lo * Real.cos (deg2rad centrePointDeg))) ∧
    (lats = [] → equiRectProject lats lons = ([], [])) := by
  refine ⟨by simp [equiRectProject], by simp [equiRectProject], fun i => ⟨?_, ?_⟩, ?_⟩
  · simp [equiRectProject, List.get?_map]
  · simp [equiRectProject, List.get?_map]
  · intro hl
    subst hl
    have : lons = [] := by
      cases lons with
      | nil => rfl
      | cons a l => simp at h
    subst this
    simp [equiRectProject]

/-- C1 witness: evaluate the projector on the concrete input
`lats = [0, 90]`, `lons = [10, 20]`. -/
theorem equiRectProject_elementwise_witness :
    ([(0 : ℝ), 90].length = [(10 : ℝ), 20].length) ∧
    ((equiRectProject [0, 90] [10, 20]).1.length = [(0 : ℝ), 90].length ∧
     (equiRectProject [0, 90] [10, 20]).2.length = [(10 : ℝ), 20].length ∧
     (∀ i : ℕ,
       (equiRectProject [0, 90] [10, 20]).1.get? i
         = (([(0 : ℝ), 90]).get? i).map (fun la => earthRadius * deg2rad la) ∧
       (equiRectProject [0, 90] [10, 20]).2.get? i
         = (([(10 : ℝ), 20]).get? i).map
             (fun lo => earthRadius * deg2rad lo * Real.cos (deg2rad centrePointDeg))) ∧
     (([(0 : ℝ), 90]) = [] → equiRectProject [0, 90] [10, 20] = ([], []))) :=
  ⟨rfl, equiRectProject_elementwise [0, 90] [10, 20] rfl⟩

/-- C9 counterexample: the claim "y ≈ 0 only when the input latitude equals the
reference latitude" is false: input latitude `0` projects to `y = 0` exactly,
yet `0` is not the hardcoded reference latitude. -/
theorem project_y_zero_not_at_centre :
    (equiRectProject [0] [5]).1 = [0] ∧ (0 : ℝ) ≠ centrePointDeg := by
  constructor
  · simp [equiRectProject, deg2rad]
  · intro h
    rw [centrePointDeg] at h
    norm_num at h

/-- C9 amended: the projected `y` of a single point is `0` exactly when the input
latitude is `0` (the projection never recentres on the reference latitude);
in particular projecting the reference latitude itself gives
`y = 6371 * deg2rad centrePointDeg ≠ 0`. -/
theorem project_y_zero_iff (lat lon : ℝ) :
    ((equiRectProject [lat] [lon]).1 = [0] ↔ lat = 0) ∧
    (equiRectProject [centrePointDeg] [lon]).1
      = [earthRadius * deg2rad centrePointDeg] ∧
    earthRadius * deg2rad centrePointDeg ≠ 0 := by
  refine ⟨?_, by simp [equiRectProject], ?_⟩
  · constructor
    · intro h
      simp only [equiRectProject, List.map_cons, List.map_nil, List.cons.injEq] at h
      have h1 := h.1
      rw [deg2rad, earthRadius] at h1
      have hpi := Real.pi_ne_zero
      rcases mul_eq_zero.mp h1 with h2 | h2
      · norm_num at h2
      · rcases mul_eq_zero.mp h2 with h3 | h3
        · exact h3
        · exfalso
          apply hpi
          have : Real.pi / 180 = 0 := h3
          linarith
    · intro h
      subst h
      simp [equiRectProject, deg2rad]
  · rw [deg2rad, earthRadius, centrePointDeg]
    intro h
    have hpi := Real.pi_pos
    rcases mul_eq_zero.mp h with h2 | h2
    · norm_num at h2
    · rcases mul_eq_zero.mp h2 with h3 | h3
      · norm_num at h3
      · linarith

/-- C10: the projection is elementwise: it maps concatenation to concatenation,
and the `i`-th output depends only on the `i`-th input entry of the
corresponding list. -/
theorem equiRectProject_append_pointwise (l1 l2 g1 g2 : List ℝ) :
    equiRectProject (l1 ++ l2) (g1 ++ g2)
      = ((equiRectProject l1 g1).1 ++ (equiRectProject l2 g2).1,
         (equiRectProject l1 g1).2 ++ (equiRectProject l2 g2).2) ∧
    (∀ i : ℕ,
      (equiRectProject l1 g1).1.get? i
        = (l1.get? i).map (fun la => earthRadius * deg2rad la) ∧
      (equiRectProject l1 g1).2.get? i
        = (g1.get? i).map
            (fun lo => earthRadius * deg2rad lo * Real.cos (deg2rad centrePointDeg))) := by
  refine ⟨?_, fun i => ⟨?_, ?_⟩⟩
  · simp [equiRectProject]
  · simp [equiRectProject, List.get?_map]
  · simp [equiRectProject, List.get?_map]

/-! ### Aggregator: `post_processing.py` data model -/

/-- One row of the sweep-output CSV, as read by `post_process`. -/
structure TrialRecord where
  cost_constraint_ratio : ℚ
  chain_strength : ℚ
  trial : ℤ
  relative_cost : ℚ
  route : List ℤ
deriving DecidableEq

/-- The groupby key `(cost_constraint_ratio, chain_strength)`. -/
def recKey (r : TrialRecord) : ℚ × ℚ := (r.cost_constraint_ratio, r.chain_strength)

/-- Lexicographic order on group keys: pandas `groupby` sorts group keys. -/
def keyLE (a b : ℚ × ℚ) : Prop := a.1 < b.1 ∨ (a.1 = b.1 ∧ a.2 ≤ b.2)

instance : DecidableRel keyLE := fun a b => by
  unfold keyLE; infer_instance

/-- The distinct group keys of a table, in the sorted order pandas `groupby`
(with its default `sort=True`) emits them. -/
def groupKeys (df : List TrialRecord) : List (ℚ × ℚ) :=
  ((df.map recKey).dedup).insertionSort keyLE

/-- The records of `df` falling in the group of key `k`. -/
def groupOf (df : List TrialRecord) (k : ℚ × ℚ) : List TrialRecord :=
  df.filter (fun r => decide (recKey r = k))

/-- `average` (post_processing.py): group the success table by
`(cost_constraint_ratio, chain_strength)` and take the mean of
`relative_cost` in each group (`agg({"relative_cost": "mean"})`). -/
def average (df : List TrialRecord) : List (ℚ × ℚ × ℚ) :=
  (groupKeys df).map (fun k =>
    (k.1, k.2,
     ((groupOf df k).map TrialRecord.relative_cost).sum / ((groupOf df k).length : ℚ)))

/-! Helper lemmas about `groupKeys` and `groupOf`. -/

theorem mem_groupKeys (df : List TrialRecord) (k : ℚ × ℚ) :
    k ∈ groupKeys df ↔ k ∈ df.map recKey := by
  unfold groupKeys
  rw [(List.perm_insertionSort keyLE _).mem_iff, List.mem_dedup]

theorem groupOf_ne_nil (df : List TrialRecord) (k : ℚ × ℚ)
    (h : k ∈ df.map recKey) : groupOf df k ≠ [] := by
  rcases List.mem_map.mp h with ⟨r, hr, hk⟩
  intro hnil
  have : r ∈ groupOf df k := by
    unfold groupOf
    rw [List.mem_filter]
    exact ⟨hr, by simp [hk]⟩
  rw [hnil] at this
  exact List.not_mem_nil r this

/-- C2: a row `(a, b, m)` appears in the `average` table exactly when `(a, b)`
is a key occurring in the input and `m` is the arithmetic mean (sum divided by
count) of `relative_cost` over the records of that group. -/
theorem average_is_groupwise_mean (df : List TrialRecord)
    (hsucc : ∀ r ∈ df, r.relative_cost ≠ -1) (a b m : ℚ) :
    (a, b, m) ∈ average df ↔
      ((a, b) ∈ df.map recKey ∧
       m = ((groupOf df (a, b)).map TrialRecord.relative_cost).sum
             / ((groupOf df (a, b)).length : ℚ)) := by
  unfold average
  rw [List.mem_map]
  constructor
  · rintro ⟨k, hk, heq⟩
    obtain ⟨h1, h2, h3⟩ : k.1 = a ∧ k.2 = b ∧
        ((groupOf df k).map TrialRecord.relative_cost).sum
          / ((groupOf df k).length : ℚ) = m := by
      refine ⟨congrArg Prod.fst heq, ?_, ?_⟩
      · have := congrArg Prod.snd heq
        exact congrArg Prod.fst this
      · have := congrArg Prod.snd heq
        exact congrArg Prod.snd this
    have hk' : k = (a, b) := Prod.ext h1 h2
    subst hk'
    exact ⟨(mem_groupKeys df (a, b)).mp hk, h3.symm⟩
  · rintro ⟨hmem, hm⟩
    exact ⟨(a, b), (mem_groupKeys df (a, b)).mpr hmem, by rw [hm]⟩

/-- C2 witness: three records with costs 10, 20, 30 in the single group
`(1, 2)` average to exactly 20. -/
theorem average_is_groupwise_mean_witness :
    ((1 : ℚ), (2 : ℚ), (20 : ℚ)) ∈ average
      [⟨1, 2, 0, 10, []⟩, ⟨1, 2, 1, 20, []⟩, ⟨1, 2, 2, 30, []⟩] :=
  (average_is_groupwise_mean
      [⟨1, 2, 0, 10, []⟩, ⟨1, 2, 1, 20, []⟩, ⟨1, 2, 2, 30, []⟩]
      (by decide) 1 2 20).mpr
    ⟨by decide, by norm_num [groupOf, recKey, List.filter]⟩

/-! ### `best` (post_processing.py): `idxmin` per group, first occurrence wins -/

/-- One step of pandas `idxmin`: keep the current minimum, replacing it only on
a strictly smaller cost, so the first-encountered minimum survives. -/
def pickMin (b x : TrialRecord) : TrialRecord :=
  if x.relative_cost < b.relative_cost then x else b

/-- `idxmin` on one group: the first record attaining the minimal
`relative_cost` (`none` on an empty group). -/
def firstMin : List TrialRecord → Option TrialRecord
  | [] => none
  | r :: rs => some (rs.foldl pickMin r)

/-- `best` (post_processing.py): `groupby(...)["relative_cost"].idxmin()`
followed by `.loc[idx]` — for each group key, the first record of the group
with minimal `relative_cost`. -/
def best (df : List TrialRecord) : List TrialRecord :=
  (groupKeys df).filterMap (fun k => firstMin (groupOf df k))

theorem foldl_pickMin_spec (rs : List TrialRecord) (r : TrialRecord) :
    rs.foldl pickMin r ∈ r :: rs ∧
    (∀ x ∈ r :: rs, (rs.foldl pickMin r).relative_cost ≤ x.relative_cost) ∧
    (r :: rs).find?
        (fun x => decide (x.relative_cost = (rs.foldl pickMin r).relative_cost))
      = some (rs.foldl pickMin r) := by
  induction rs generalizing r with
  | nil =>
    refine ⟨List.mem_singleton.mpr rfl, ?_, ?_⟩
    · intro x hx
      rw [List.mem_singleton] at hx
      subst hx
      exact le_refl _
    · simp [List.find?]
  | cons x xs ih =>
    rw [List.foldl_cons]
    by_cases hlt : x.relative_cost < r.relative_cost
    · have hpick : pickMin r x = x := by simp [pickMin, hlt]
      rw [hpick]
      rcases ih x with ⟨hmem, hmin, hfind⟩
      refine ⟨List.mem_cons_of_mem r hmem, ?_, ?_⟩
      · intro y hy
        rcases List.mem_cons.mp hy with hy | hy
        · subst hy
          exact le_trans (hmin x (List.mem_cons_self x xs)) (le_of_lt hlt)
        · exact hmin y hy
      · have hr : ¬ ((fun y : TrialRecord =>
            decide (y.relative_cost = (xs.foldl pickMin x).relative_cost)) r = true) := by
          rw [decide_eq_true_eq]
          intro heq
          have h1 := hmin x (List.mem_cons_self x xs)
          rw [← heq] at h1
          exact absurd (lt_of_lt_of_le hlt h1) (lt_irrefl _)
        exact (List.find?_cons_of_neg (x :: xs) hr).trans hfind
    · have hpick : pickMin r x = r := by simp [pickMin, hlt]
      rw [hpick]
      rcases ih r with ⟨hmem, hmin, hfind⟩
      have hrx : (xs.foldl pickMin r).relative_cost ≤ x.relative_cost :=
        le_trans (hmin r (List.mem_cons_self r xs)) (not_lt.mp hlt)
      refine ⟨?_, ?_, ?_⟩
      · rcases List.mem_cons.mp hmem with h | h
        · rw [h]
          exact List.mem_cons_self r (x :: xs)
        · exact List.mem_cons_of_mem r (List.mem_cons_of_mem x h)
      · intro y hy
        rcases List.mem_cons.mp hy with hy | hy
        · rw [hy]
          exact hmin r (List.mem_cons_self r xs)
        · rcases List.mem_cons.mp hy with hy | hy
          · rw [hy]
            exact hrx
          · exact hmin y (List.mem_cons_of_mem r hy)
      · by_cases hr : (r : TrialRecord).relative_cost = (xs.foldl pickMin r).relative_cost
        · have hptrue : ((fun y : TrialRecord =>
              decide (y.relative_cost = (xs.foldl pickMin r).relative_cost)) r = true) := by
            rw [decide_eq_true_eq]
            exact hr
          have hfr : (r :: xs).find?
              (fun y => decide (y.relative_cost = (xs.foldl pickMin r).relative_cost))
                = some r :=
            List.find?_cons_of_pos _ hptrue
          have hre : r = xs.foldl pickMin r :=
            Option.some.inj (hfr.symm.trans hfind)
          exact (List.find?_cons_of_pos (x :: xs) hptrue).trans (congrArg some hre)
        · have hrf : ¬ ((fun y : TrialRecord =>
              decide (y.relative_cost = (xs.foldl pickMin r).relative_cost)) r = true) := by
            rw [decide_eq_true_eq]
            exact hr
          have hxf : ¬ ((fun y : TrialRecord =>
              decide (y.relative_cost = (xs.foldl pickMin r).relative_cost)) x = true) := by
            rw [decide_eq_true_eq]
            intro heq
            apply hr
            have h1 : (xs.foldl pickMin r).relative_cost ≤ r.relative_cost :=
              hmin r (List.mem_cons_self r xs)
            have h2 : r.relative_cost ≤ x.relative_cost := not_lt.mp hlt
            exact le_antisymm (heq ▸ h2) h1
          exact (List.find?_cons_of_neg (x :: xs) hrf).trans
            ((List.find?_cons_of_neg xs hxf).trans
              ((List.find?_cons_of_neg xs hrf).symm.trans hfind))

/-- C3: every record in the `best` table belongs to the input, minimises
`relative_cost` within its `(cost_constraint_ratio, chain_strength)` group, and
is the first record of its group attaining that minimum (`find?` semantics);
conversely every key occurring in the input contributes such a record. -/
theorem best_selects_first_min (df : List TrialRecord)
    (hsucc : ∀ r ∈ df, r.relative_cost ≠ -1) :
    (∀ rec ∈ best df,
       rec ∈ df ∧
       (∀ r ∈ df, recKey r = recKey rec → rec.relative_cost ≤ r.relative_cost) ∧
       (groupOf df (recKey rec)).find?
           (fun x => decide (x.relative_cost = rec.relative_cost)) = some rec) ∧
    (∀ k ∈ df.map recKey, ∃ rec ∈ best df, recKey rec = k) := by
  constructor
  · intro rec hrec
    rcases List.mem_filterMap.mp hrec with ⟨k, hk, hfm⟩
    rcases hg : groupOf df k with _ | ⟨g, gs⟩
    · rw [hg] at hfm
      simp [firstMin] at hfm
    · rw [hg] at hfm
      simp only [firstMin, Option.some.injEq] at hfm
      rcases foldl_pickMin_spec gs g with ⟨hmem, hmin, hfind⟩
      rw [hfm] at hmem hmin hfind
      have hrecg : rec ∈ groupOf df k := hg ▸ hmem
      have hkey : recKey rec = k := by
        have := (List.mem_filter.mp hrecg).2
        exact of_decide_eq_true this
      refine ⟨(List.mem_filter.mp hrecg).1, ?_, ?_⟩
      · intro r hr hkr
        have : r ∈ groupOf df k := by
          simp only [groupOf, List.mem_filter]
          exact ⟨hr, decide_eq_true (hkr.trans hkey)⟩
        rw [hg] at this
        exact hmin r this
      · rw [hkey, hg]
        exact hfind
  · intro k hk
    have hne := groupOf_ne_nil df k hk
    rcases hg : groupOf df k with _ | ⟨g, gs⟩
    · exact absurd hg hne
    · rcases foldl_pickMin_spec gs g with ⟨hmem, -, -⟩
      refine ⟨gs.foldl pickMin g, List.mem_filterMap.mpr ⟨k, ?_, ?_⟩, ?_⟩
      · rw [mem_groupKeys]
        exact hk
      · rw [hg]
        rfl
      · have : gs.foldl pickMin g ∈ groupOf df k := hg ▸ hmem
        exact of_decide_eq_true (List.mem_filter.mp this).2

/-- C3 witness: in the single group with costs `[5, 2, 8]` the record with
cost `2` is selected, and it is the first minimum of its group. -/
theorem best_selects_first_min_witness :
    (⟨1, 1, 1, 2, []⟩ : TrialRecord)
        ∈ [(⟨1, 1, 0, 5, []⟩ : TrialRecord), ⟨1, 1, 1, 2, []⟩, ⟨1, 1, 2, 8, []⟩] ∧
    (∀ r ∈ [(⟨1, 1, 0, 5, []⟩ : TrialRecord), ⟨1, 1, 1, 2, []⟩, ⟨1, 1, 2, 8, []⟩],
      recKey r = recKey ⟨1, 1, 1, 2, []⟩ →
        (⟨1, 1, 1, 2, []⟩ : TrialRecord).relative_cost ≤ r.relative_cost) ∧
    (groupOf [(⟨1, 1, 0, 5, []⟩ : TrialRecord), ⟨1, 1, 1, 2, []⟩, ⟨1, 1, 2, 8, []⟩]
        (recKey ⟨1, 1, 1, 2, []⟩)).find?
        (fun x => decide (x.relative_cost = (⟨1, 1, 1, 2, []⟩ : TrialRecord).relative_cost))
      = some ⟨1, 1, 1, 2, []⟩ :=
  (best_selects_first_min
      [⟨1, 1, 0, 5, []⟩, ⟨1, 1, 1, 2, []⟩, ⟨1, 1, 2, 8, []⟩]
      (by decide)).1 ⟨1, 1, 1, 2, []⟩ (by decide)

/-! ### `failed_occurences` (post_processing.py) -/

/-- `failed_occurences`: keep the rows with `relative_cost == -1`; when that
frame is empty nothing is produced (`none`); otherwise group by
`(cost_constraint_ratio, chain_strength)` and count each group (`.size()`). -/
def failedOccurences (df : List TrialRecord) : Option (List (ℚ × ℚ × ℕ)) :=
  let failed := df.filter (fun r => decide (r.relative_cost = -1))
  if failed.isEmpty then none
  else some ((groupKeys failed).map (fun k => (k.1, k.2, (groupOf failed k).length)))

theorem groupOf_filter_failed (df : List TrialRecord) (a b : ℚ) :
    groupOf (df.filter (fun r => decide (r.relative_cost = -1))) (a, b)
      = df.filter (fun r => decide (recKey r = (a, b) ∧ r.relative_cost = -1)) := by
  unfold groupOf
  rw [List.filter_filter]
  congr 1
  funext r
  simp

/-- C4: `failed_occurences` yields no output exactly when no record failed;
when it yields a table, a row `(a, b, c)` is present iff `c` is positive and
equals the number of failing records in cell `(a, b)` — cells without failing
records get no row. -/
theorem failedOccurences_spec (df : List TrialRecord) :
    (failedOccurences df = none ↔ ∀ r ∈ df, r.relative_cost ≠ -1) ∧
    (∀ t, failedOccurences df = some t →
      ∀ a b : ℚ, ∀ c : ℕ, ((a, b, c) ∈ t ↔
        (0 < c ∧
         c = (df.filter
            (fun r => decide (recKey r = (a, b) ∧ r.relative_cost = -1))).length))) := by
  constructor
  · unfold failedOccurences
    by_cases hemp : (df.filter (fun r => decide (r.relative_cost = -1))).isEmpty
    · rw [if_pos hemp]
      rw [List.isEmpty_iff] at hemp
      refine iff_of_true rfl ?_
      intro r hr hc
      have : r ∈ df.filter (fun r => decide (r.relative_cost = -1)) := by
        rw [List.mem_filter]
        exact ⟨hr, decide_eq_true hc⟩
      rw [hemp] at this
      exact List.not_mem_nil r this
    · rw [if_neg hemp]
      rw [List.isEmpty_iff] at hemp
      rcases List.exists_mem_of_ne_nil _ hemp with ⟨r, hr⟩
      rw [List.mem_filter] at hr
      refine iff_of_false (by simp) ?_
      intro hall
      exact hall r hr.1 (of_decide_eq_true hr.2)
  · intro t ht a b c
    unfold failedOccurences at ht
    by_cases hemp : (df.filter (fun r => decide (r.relative_cost = -1))).isEmpty
    · rw [if_pos hemp] at ht
      exact absurd ht (by simp)
    · rw [if_neg hemp, Option.some.injEq] at ht
      subst ht
      rw [List.mem_map]
      constructor
      · rintro ⟨k, hk, heq⟩
        have h1 : k.1 = a := congrArg Prod.fst heq
        have h2 : k.2 = b := congrArg Prod.fst (congrArg Prod.snd heq)
        have h3 : (groupOf (df.filter (fun r => decide (r.relative_cost = -1))) k).length
            = c := congrArg Prod.snd (congrArg Prod.snd heq)
        have hk' : k = (a, b) := Prod.ext h1 h2
        subst hk'
        rw [groupOf_filter_failed] at h3
        refine ⟨?_, h3.symm⟩
        rw [← h3, ← groupOf_filter_failed, List.length_pos]
        exact groupOf_ne_nil _ _ ((mem_groupKeys _ _).mp hk)
      · rintro ⟨hpos, hc⟩
        have hne : df.filter
            (fun r => decide (recKey r = (a, b) ∧ r.relative_cost = -1)) ≠ [] := by
          intro hnil
          rw [hnil] at hc
          simp at hc
          omega
        rcases List.exists_mem_of_ne_nil _ hne with ⟨r, hr⟩
        rw [List.mem_filter, decide_eq_true_eq] at hr
        have hrfail : r ∈ df.filter (fun r => decide (r.relative_cost = -1)) := by
          rw [List.mem_filter]
          exact ⟨hr.1, decide_eq_true hr.2.2⟩
        have hkmem : (a, b) ∈ groupKeys
            (df.filter (fun r => decide (r.relative_cost = -1))) := by
          rw [mem_groupKeys, List.mem_map]
          exact ⟨r, hrfail, hr.2.1⟩
        refine ⟨(a, b), hkmem, ?_⟩
        rw [groupOf_filter_failed, ← hc]

/-- C4 witness: three failing records in cell `(1, 1)` and a successful record
in cell `(2, 2)` give a failure table whose row `(1, 1, 3)` counts exactly the
three failures. -/
theorem failedOccurences_spec_witness :
    ((1 : ℚ), (1 : ℚ), (3 : ℕ)) ∈ [((1 : ℚ), (1 : ℚ), (3 : ℕ))] ↔
      (0 < 3 ∧ 3 = (([⟨1, 1, 0, -1, []⟩, ⟨1, 1, 1, -1, []⟩, ⟨1, 1, 2, -1, []⟩,
          ⟨2, 2, 0, 5, []⟩] : List TrialRecord).filter
            (fun r => decide (recKey r = (1, 1) ∧ r.relative_cost = -1))).length) :=
  (failedOccurences_spec [⟨1, 1, 0, -1, []⟩, ⟨1, 1, 1, -1, []⟩, ⟨1, 1, 2, -1, []⟩,
      ⟨2, 2, 0, 5, []⟩]).2 [(1, 1, 3)] (by decide) 1 1 3

/-! ### Route renderer: `route_storer.__add_lines` / `create_graph` -/

/-- The `orders` dictionary built in `__reformat_locations`:
`order_id ↦ {lat, lon}`.  Python dict indexing `orders_dict[id]` raises
`KeyError` on an absent id, modelled with `Option`. -/
def ordersLookup (orders : List (ℤ × ℝ × ℝ)) (i : ℤ) : Option (ℝ × ℝ) :=
  (orders.find? (fun p => decide (p.1 = i))).map Prod.snd

/-- The consecutive pairs `(route[i], route[i+1])` for `i in range(len(route)-1)`
visited by the loop of `__add_lines`. -/
def routeEdges (route : List ℤ) : List (ℤ × ℤ) := route.zip route.tail

theorem routeEdges_cons (a b : ℤ) (rest : List ℤ) :
    routeEdges (a :: b :: rest) = (a, b) :: routeEdges (b :: rest) := rfl

theorem routeEdges_length (route : List ℤ) :
    (routeEdges route).length = route.length - 1 := by
  unfold routeEdges
  rw [List.length_zip, List.length_tail]
  omega

/-- The collection loop of `__add_lines`: for each edge, fetch the raw start
and end coordinates from the dictionary, aborting on the first missing id. -/
def lookupEdges (orders : List (ℤ × ℝ × ℝ)) :
    List (ℤ × ℤ) → Option (List ((ℝ × ℝ) × (ℝ × ℝ)))
  | [] => some []
  | e :: es => do
      let s ← ordersLookup orders e.1
      let t ← ordersLookup orders e.2
      let rest ← lookupEdges orders es
      pure ((s, t) :: rest)

/-- The projected plot point of one raw `(lat, lon)` pair: `(x, y)` with
`x` the projected longitude and `y` the projected latitude. -/
noncomputable def projPt (p : ℝ × ℝ) : ℝ × ℝ :=
  (earthRadius * deg2rad p.2 * Real.cos (deg2rad centrePointDeg),
   earthRadius * deg2rad p.1)

/-- `__add_lines routes orders_dict`: collect the endpoint coordinates of every
consecutive pair of every route, project the start and end coordinate lists
with `__equi_rect_project`, and emit one arrow per pair, drawn from the
projected start point (`xytext`) to the projected end point (`xy`). -/
noncomputable def addLines (routes : List (List ℤ)) (orders : List (ℤ × ℝ × ℝ)) :
    Option (List ((ℝ × ℝ) × (ℝ × ℝ))) := do
  let pairs ← lookupEdges orders (routes.bind routeEdges)
  let ps := equiRectProject ((pairs.map Prod.fst).map Prod.fst)
    ((pairs.map Prod.fst).map Prod.snd)
  let pe := equiRectProject ((pairs.map Prod.snd).map Prod.fst)
    ((pairs.map Prod.snd).map Prod.snd)
  pure ((ps.2.zip ps.1).zip (pe.2.zip pe.1))

theorem addLines_eq_map (routes : List (List ℤ)) (orders : List (ℤ × ℝ × ℝ)) :
    addLines routes orders
      = (lookupEdges orders (routes.bind routeEdges)).map
          (fun pairs => pairs.map (fun st => (projPt st.1, projPt st.2))) := by
  unfold addLines
  cases h : lookupEdges orders (routes.bind routeEdges) with
  | none => rfl
  | some pairs =>
    simp only [Option.bind_eq_bind, Option.some_bind, Option.map_some']
    congr 1
    simp only [equiRectProject, List.map_map]
    rw [List.zip_map', List.zip_map', List.zip_map']
    rfl

theorem lookupEdges_some (orders : List (ℤ × ℝ × ℝ)) (edges : List (ℤ × ℤ))
    (h : ∀ e ∈ edges,
      (ordersLookup orders e.1).isSome ∧ (ordersLookup orders e.2).isSome) :
    ∃ pairs, lookupEdges orders edges = some pairs ∧
      pairs.length = edges.length ∧
      (∀ n : ℕ, ∀ a b : ℤ, ∀ p q : ℝ × ℝ,
        edges.get? n = some (a, b) →
        ordersLookup orders a = some p → ordersLookup orders b = some q →
        pairs.get? n = some (p, q)) := by
  induction edges with
  | nil =>
    refine ⟨[], rfl, rfl, ?_⟩
    intro n a b p q hn
    simp at hn
  | cons e es ih =>
    rcases h e (List.mem_cons_self e es) with ⟨hs, ht⟩
    rcases Option.isSome_iff_exists.mp hs with ⟨s, hs'⟩
    rcases Option.isSome_iff_exists.mp ht with ⟨t, ht'⟩
    rcases ih (fun x hx => h x (List.mem_cons_of_mem e hx)) with ⟨rest, hrest, hlen, hidx⟩
    refine ⟨(s, t) :: rest, ?_, by simp [hlen], ?_⟩
    · unfold lookupEdges
      rw [hs', ht', hrest]
      rfl
    · intro n a b p q hn hp hq
      cases n with
      | zero =>
        simp only [List.get?_cons_zero, Option.some.injEq] at hn
        subst hn
        rw [List.get?_cons_zero]
        have hps : p = s := Option.some.inj (hp.symm.trans hs')
        have hqt : q = t := Option.some.inj (hq.symm.trans ht')
        rw [hps, hqt]
      | succ m =>
        rw [List.get?_cons_succ] at hn
        rw [List.get?_cons_succ]
        exact hidx m a b p q hn hp hq

theorem lookupEdges_none (orders : List (ℤ × ℝ × ℝ)) (edges : List (ℤ × ℤ))
    (e : ℤ × ℤ) (he : e ∈ edges)
    (hf : ordersLookup orders e.1 = none ∨ ordersLookup orders e.2 = none) :
    lookupEdges orders edges = none := by
  induction edges with
  | nil => exact absurd he (List.not_mem_nil e)
  | cons x xs ih =>
    unfold lookupEdges
    rcases List.mem_cons.mp he with he' | he'
    · subst he'
      rcases hf with hf | hf
      · rw [hf]
        rfl
      · cases h1 : ordersLookup orders e.1 with
        | none => rfl
        | some s => rw [hf]; rfl
    · cases h1 : ordersLookup orders x.1 with
      | none => rfl
      | some s =>
        cases h2 : ordersLookup orders x.2 with
        | none => rfl
        | some t =>
          rw [ih he']
          rfl

theorem mem_routeEdges : ∀ (route : List ℤ) (i : ℤ), i ∈ route →
    2 ≤ route.length → ∃ e ∈ routeEdges route, e.1 = i ∨ e.2 = i
  | [], i, hi, _ => absurd hi (List.not_mem_nil i)
  | [_], _, _, h2 => by simp at h2
  | a :: b :: rest, i, hi, _ => by
    rcases List.mem_cons.mp hi with h | h
    · exact ⟨(a, b), List.mem_cons_self _ _, Or.inl h.symm⟩
    · rcases rest with _ | ⟨c, rest2⟩
      · rw [List.mem_singleton] at h
        exact ⟨(a, b), List.mem_cons_self _ _, Or.inr h.symm⟩
      · rcases mem_routeEdges (b :: c :: rest2) i h (by simp) with ⟨e, he, hor⟩
        rw [routeEdges_cons]
        exact ⟨e, List.mem_cons_of_mem _ he, hor⟩

/-- C5: when every id of the route resolves in the locations dictionary,
`__add_lines` draws exactly `N - 1` arrows for a route of length `N`, the
`n`-th going from the projected coordinates of stop `n` to the projected
coordinates of stop `n + 1`. -/
theorem addLines_draws_route (route : List ℤ) (orders : List (ℤ × ℝ × ℝ))
    (h : ∀ i ∈ route, (ordersLookup orders i).isSome) :
    ∃ arrows, addLines [route] orders = some arrows ∧
      arrows.length = route.length - 1 ∧
      (∀ n : ℕ, ∀ a b : ℤ, ∀ p q : ℝ × ℝ,
        route.get? n = some a → route.get? (n + 1) = some b →
        ordersLookup orders a = some p → ordersLookup orders b = some q →
        arrows.get? n = some (projPt p, projPt q)) := by
  have hbind : ([route] : List (List ℤ)).bind routeEdges = routeEdges route := by
    simp [List.bind]
  have hedge : ∀ e ∈ routeEdges route,
      (ordersLookup orders e.1).isSome ∧ (ordersLookup orders e.2).isSome := by
    rintro ⟨a, b⟩ he
    have := List.of_mem_zip he
    exact ⟨h a this.1, h b (List.mem_of_mem_tail this.2)⟩
  rcases lookupEdges_some orders (routeEdges route) hedge with ⟨pairs, hpairs, hlen, hidx⟩
  refine ⟨pairs.map (fun st => (projPt st.1, projPt st.2)), ?_, ?_, ?_⟩
  · rw [addLines_eq_map, hbind, hpairs]
    rfl
  · rw [List.length_map, hlen, routeEdges_length]
  · intro n a b p q hna hnb hp hq
    have hedge_n : (routeEdges route).get? n = some (a, b) := by
      unfold routeEdges
      have htail : route.tail.get? n = some b := by
        cases route with
        | nil => simp at hna
        | cons x xs => exact hnb
      rw [List.zip_eq_zipWith, List.get?_zip_with, hna, htail]
      rfl
    rw [List.get?_map, hidx n a b p q hedge_n hp hq]
    rfl

/-- C5 witness: with locations `{1 ↦ (0, 0), 2 ↦ (0, 1)}` and route `[1, 2]`,
exactly one arrow is drawn, from the projected point of location 1 to the
projected point of location 2. -/
theorem addLines_draws_route_witness :
    ∃ arrows, addLines [[1, 2]] [(1, (0, 0)), (2, (0, 1))] = some arrows ∧
      arrows.length = ([1, 2] : List ℤ).length - 1 ∧
      (∀ n : ℕ, ∀ a b : ℤ, ∀ p q : ℝ × ℝ,
        ([1, 2] : List ℤ).get? n = some a → ([1, 2] : List ℤ).get? (n + 1) = some b →
        ordersLookup [(1, (0, 0)), (2, (0, 1))] a = some p →
        ordersLookup [(1, (0, 0)), (2, (0, 1))] b = some q →
        arrows.get? n = some (projPt p, projPt q)) :=
  addLines_draws_route [1, 2] [(1, (0, 0)), (2, (0, 1))]
    (by
      intro i hi
      rcases List.mem_cons.mp hi with h | h
      · subst h; rfl
      · rw [List.mem_singleton] at h; subst h; rfl)

/-- C6 counterexample: route `[99]` references id `99`, absent from the
dictionary `{1 ↦ (0, 0)}`, yet the render succeeds (a one-stop route has no
consecutive pair, so no lookup happens and no arrow is drawn), contradicting
"rendering fails for every route containing an absent identifier". -/
theorem addLines_missing_id_single_route :
    ordersLookup [((1 : ℤ), ((0 : ℝ), (0 : ℝ)))] 99 = none ∧
    addLines [[99]] [((1 : ℤ), ((0 : ℝ), (0 : ℝ)))] = some [] := ⟨rfl, rfl⟩

/-- C6 amended: for a route with at least two stops, an id absent from the
locations dictionary aborts `__add_lines` with a lookup error; whenever every
id of the route exists the render succeeds (and a route with fewer than two
stops performs no lookup at all, succeeding even with unknown ids). -/
theorem addLines_missing_id (route : List ℤ) (orders : List (ℤ × ℝ × ℝ)) :
    (2 ≤ route.length → (∃ i ∈ route, ordersLookup orders i = none) →
      addLines [route] orders = none) ∧
    ((∀ i ∈ route, (ordersLookup orders i).isSome) →
      (addLines [route] orders).isSome) ∧
    (route.length < 2 → addLines [route] orders = some []) := by
  have hbind : ([route] : List (List ℤ)).bind routeEdges = routeEdges route := by
    simp [List.bind]
  refine ⟨?_, ?_, ?_⟩
  · rintro h2 ⟨i, hi, hnone⟩
    rcases mem_routeEdges route i hi h2 with ⟨e, he, hor⟩
    have : lookupEdges orders (routeEdges route) = none := by
      apply lookupEdges_none orders _ e he
      rcases hor with h | h
      · exact Or.inl (h ▸ hnone)
      · exact Or.inr (h ▸ hnone)
    rw [addLines_eq_map, hbind, this]
    rfl
  · intro h
    have hedge : ∀ e ∈ routeEdges route,
        (ordersLookup orders e.1).isSome ∧ (ordersLookup orders e.2).isSome := by
      rintro ⟨a, b⟩ he
      have := List.of_mem_zip he
      exact ⟨h a this.1, h b (List.mem_of_mem_tail this.2)⟩
    rcases lookupEdges_some orders (routeEdges route) hedge with ⟨pairs, hpairs, -, -⟩
    rw [addLines_eq_map, hbind, hpairs]
    rfl
  · intro hlt
    have : routeEdges route = [] := by
      have := routeEdges_length route
      rcases route with _ | ⟨a, rest⟩
      · rfl
      · rcases rest with _ | ⟨b, rest2⟩
        · rfl
        · simp only [List.length_cons] at hlt
          omega
    rw [addLines_eq_map, hbind, this]
    rfl

/-! ### Grid plotter: the pivot of `graph_storer.save_heatmap` / `save_contour_plot` -/

/-- The `(index, columns)` key of each row handed to `DataFrame.pivot` with
`index="cost_constraint_ratio"`, `columns="chain_strength"`,
`values` the third component. -/
def pivotKeys (t : List (ℚ × ℚ × ℚ)) : List (ℚ × ℚ) :=
  t.map (fun r => (r.1, r.2.1))

/-- `df.pivot(index=..., columns=..., values=...)` as called by `save_heatmap`
and `save_contour_plot`: pandas raises `ValueError` ("Index contains duplicate
entries, cannot reshape") when an `(index, columns)` pair occurs more than
once, modelled by `none`; otherwise it reshapes into the grid over the sorted
distinct row and column values, a cell missing from the input holding NaN
(modelled `none`). -/
def pivot (t : List (ℚ × ℚ × ℚ)) : Option (List (ℚ × List (ℚ × Option ℚ))) :=
  if (pivotKeys t).Nodup then
    some ((((t.map (fun r => r.1)).dedup).insertionSort (· ≤ ·)).map (fun i =>
      (i, (((t.map (fun r => r.2.1)).dedup).insertionSort (· ≤ ·)).map (fun c =>
        (c, (t.find? (fun r => decide (r.1 = i ∧ r.2.1 = c))).map
              (fun r => r.2.2))))))
  else none

/-- C7 counterexample: a table with the `(row, col)` key `(1, 1)` twice makes
the pivot raise (`none`): no value "wins", refuting "does not crash, the
duplicate cell takes the last-encountered value". -/
theorem pivot_duplicate_crashes :
    pivot [(1, 1, 5), (1, 1, 6)] = none ∧
    ¬ (pivotKeys [(1, 1, 5), (1, 1, 6)]).Nodup := by
  constructor
  · rfl
  · decide

/-- C7 amended: the pivot underlying the heatmap and contour plotters raises
`ValueError` (producing no grid) precisely when some `(row_key, col_key)` pair
occurs more than once in the input; no duplicate survives to take any value.
On duplicate-free input it produces the grid. -/
theorem pivot_raises_on_duplicates (t : List (ℚ × ℚ × ℚ)) :
    (pivot t = none ↔ ∃ k : ℚ × ℚ, [k, k].Sublist (pivotKeys t)) ∧
    (∀ g, pivot t = some g → ∀ k : ℚ × ℚ, ¬ [k, k].Sublist (pivotKeys t)) := by
  have hiff : (∃ k : ℚ × ℚ, [k, k].Sublist (pivotKeys t)) ↔ ¬ (pivotKeys t).Nodup := by
    rw [List.nodup_iff_sublist]
    push_neg
    rfl
  constructor
  · rw [hiff]
    unfold pivot
    by_cases h : (pivotKeys t).Nodup
    · rw [if_pos h]
      simp [h]
    · rw [if_neg h]
      simp [h]
  · intro g hg k
    have hnd : (pivotKeys t).Nodup := by
      by_contra h
      unfold pivot at hg
      rw [if_neg h] at hg
      exact absurd hg (by simp)
    exact (List.nodup_iff_sublist.mp hnd) k

/-! ### Driver: `post_process` (post_processing.py) -/

/-- One artifact the pipeline writes under `data/`. -/
inductive OutputFile where
  | heatmapFile (pre suf : String)
  | contourFile (pre suf : String)
  | routeFile (ratio strength : ℚ) (trialIdx : ℤ) (relCost : ℚ)
deriving DecidableEq

def isHeatmapFile : OutputFile → Bool
  | .heatmapFile _ _ => true
  | _ => false

def isContourFile : OutputFile → Bool
  | .contourFile _ _ => true
  | _ => false

def isRouteFile : OutputFile → Bool
  | .routeFile _ _ _ _ => true
  | _ => false

/-- `save_heatmap` (graph_storer.py): pivot the table, then write
`<pre>_heatmap_<suf>`; a pivot `ValueError` propagates. -/
def saveHeatmap (t : List (ℚ × ℚ × ℚ)) (pre suf : String) : Option OutputFile :=
  (pivot t).map (fun _ => OutputFile.heatmapFile pre suf)

/-- `save_contour_plot` (graph_storer.py): pivot the table, then write
`<pre>_contours_<suf>`; a pivot `ValueError` propagates. -/
def saveContourPlot (t : List (ℚ × ℚ × ℚ)) (pre suf : String) : Option OutputFile :=
  (pivot t).map (fun _ => OutputFile.contourFile pre suf)

/-- `average(success_df, output_file)`: one `avg` heatmap then one `avg`
contour plot of the per-cell mean table. -/
def averageOutputs (success : List TrialRecord) (out : String) :
    Option (List OutputFile) := do
  let h ← saveHeatmap (average success) "avg" out
  let c ← saveContourPlot (average success) "avg" out
  pure [h, c]

/-- `best(success_df, output_file)`: one `best` heatmap then one `best`
contour plot of the per-cell minimum rows. -/
def bestOutputs (success : List TrialRecord) (out : String) :
    Option (List OutputFile) := do
  let t := (best success).map
    (fun r => (r.cost_constraint_ratio, r.chain_strength, r.relative_cost))
  let h ← saveHeatmap t "best" out
  let c ← saveContourPlot t "best" out
  pure [h, c]

/-- `failed_occurences(df, output_file)` at the driver level: when some record
failed, one `fails` heatmap of the per-cell failure counts (`ℕ` counts cast to
the value column); no contour plot, and no output at all without failures. -/
def failOutputs (df : List TrialRecord) (out : String) : Option (List OutputFile) :=
  match failedOccurences df with
  | none => some []
  | some t =>
      (saveHeatmap (t.map (fun r => (r.1, r.2.1, (r.2.2 : ℚ)))) "fails" out).map
        (fun h => [h])

/-- `create_graph` (route_storer.py) for one row: scatter all locations, draw
the route's arrows via `__add_lines`, write one image; fails on an unknown id. -/
noncomputable def createGraph (orders : List (ℤ × ℝ × ℝ)) (route : List ℤ) :
    Option (List ((ℝ × ℝ) × (ℝ × ℝ))) :=
  addLines [route] orders

/-- `visualise_deliveries(df, orders_file)`: one route image per input row,
named `{ratio}_{strength}_{trial}_{relative_cost}`. -/
noncomputable def visualiseDeliveries (df : List TrialRecord)
    (orders : List (ℤ × ℝ × ℝ)) : Option (List OutputFile) :=
  df.mapM (fun r => (createGraph orders r.route).map (fun _ =>
    OutputFile.routeFile r.cost_constraint_ratio r.chain_strength
      r.trial r.relative_cost))

/-- `post_process`: split off the success rows, then run `average`, `best`,
`failed_occurences` and `visualise_deliveries` in that order, collecting every
artifact written; an uncaught exception anywhere aborts the run (`none`). -/
noncomputable def postProcess (df : List TrialRecord) (orders : List (ℤ × ℝ × ℝ))
    (out : String) : Option (List OutputFile) := do
  let success := df.filter (fun r => decide (r.relative_cost ≠ -1))
  let a ← averageOutputs success out
  let b ← bestOutputs success out
  let f ← failOutputs df out
  let v ← visualiseDeliveries df orders
  pure (a ++ b ++ f ++ v)

/-! Helper lemmas for the end-to-end theorem. -/

theorem addLines_isSome_of_resolvable (route : List ℤ) (orders : List (ℤ × ℝ × ℝ))
    (h : ∀ i ∈ route, (ordersLookup orders i).isSome) :
    (addLines [route] orders).isSome := by
  have hbind : ([route] : List (List ℤ)).bind routeEdges = routeEdges route := by
    simp [List.bind]
  have hedge : ∀ e ∈ routeEdges route,
      (ordersLookup orders e.1).isSome ∧ (ordersLookup orders e.2).isSome := by
    rintro ⟨a, b⟩ he
    have := List.of_mem_zip he
    exact ⟨h a this.1, h b (List.mem_of_mem_tail this.2)⟩
  rcases lookupEdges_some orders (routeEdges route) hedge with ⟨pairs, hpairs, -, -⟩
  rw [addLines_eq_map, hbind, hpairs]
  rfl

theorem dedup_const (m : List (ℚ × ℚ)) (k : ℚ × ℚ) (hne : m ≠ [])
    (hall : ∀ x ∈ m, x = k) : m.dedup = [k] := by
  induction m with
  | nil => exact absurd rfl hne
  | cons a rest ih =>
    have ha : a = k := hall a (List.mem_cons_self a rest)
    cases rest with
    | nil =>
      rw [List.dedup_cons_of_not_mem (by simp), List.dedup_nil, ha]
    | cons b rest2 =>
      have hb : b = k := hall b (List.mem_cons_of_mem a (List.mem_cons_self b rest2))
      have hmem : a ∈ b :: rest2 := by
        rw [ha, ← hb]
        exact List.mem_cons_self b rest2
      rw [List.dedup_cons_of_mem hmem]
      exact ih (by simp) (fun x hx => hall x (List.mem_cons_of_mem a hx))

theorem groupKeys_const (l : List TrialRecord) (k : ℚ × ℚ) (hne : l ≠ [])
    (hall : ∀ r ∈ l, recKey r = k) : groupKeys l = [k] := by
  have h1 : l.map recKey ≠ [] := by
    cases l with
    | nil => exact absurd rfl hne
    | cons a rest => simp
  have h2 : ∀ x ∈ l.map recKey, x = k := by
    intro x hx
    rcases List.mem_map.mp hx with ⟨r, hr, hrk⟩
    rw [← hrk]
    exact hall r hr
  unfold groupKeys
  rw [dedup_const (l.map recKey) k h1 h2]
  rfl

theorem pivot_singleton_isSome (x : ℚ × ℚ × ℚ) : (pivot [x]).isSome := by
  unfold pivot
  rw [if_pos]
  · rfl
  · simp [pivotKeys]

theorem filterMap_singleton_some {α β : Type} (f : α → Option β) (a : α) (b : β)
    (h : f a = some b) : List.filterMap f [a] = [b] := by
  simp [List.filterMap_cons, h]

theorem averageOutputs_of_pivot (success : List TrialRecord) (out : String)
    (h : (pivot (average success)).isSome) :
    averageOutputs success out
      = some [OutputFile.heatmapFile "avg" out, OutputFile.contourFile "avg" out] := by
  rcases Option.isSome_iff_exists.mp h with ⟨g, hg⟩
  unfold averageOutputs saveHeatmap saveContourPlot
  rw [hg]
  rfl

theorem bestOutputs_of_pivot (success : List TrialRecord) (out : String)
    (h : (pivot ((best success).map
      (fun r => (r.cost_constraint_ratio, r.chain_strength, r.relative_cost)))).isSome) :
    bestOutputs success out
      = some [OutputFile.heatmapFile "best" out, OutputFile.contourFile "best" out] := by
  rcases Option.isSome_iff_exists.mp h with ⟨g, hg⟩
  unfold bestOutputs saveHeatmap saveContourPlot
  simp only [hg, Option.map_some', Option.some_bind]
  rfl

theorem failOutputs_of_table (df : List TrialRecord) (out : String)
    (t : List (ℚ × ℚ × ℕ)) (ht : failedOccurences df = some t)
    (h : (pivot (t.map (fun r => (r.1, r.2.1, (r.2.2 : ℚ))))).isSome) :
    failOutputs df out = some [OutputFile.heatmapFile "fails" out] := by
  rcases Option.isSome_iff_exists.mp h with ⟨g, hg⟩
  unfold failOutputs
  rw [ht]
  simp only [saveHeatmap, hg, Option.map_some']

theorem visualiseDeliveries_spec (df : List TrialRecord) (orders : List (ℤ × ℝ × ℝ))
    (h : ∀ r ∈ df, ∀ i ∈ r.route, (ordersLookup orders i).isSome) :
    ∃ v, visualiseDeliveries df orders = some v ∧ v.length = df.length ∧
      ∀ o ∈ v, isRouteFile o = true := by
  induction df with
  | nil => exact ⟨[], rfl, rfl, by simp⟩
  | cons r rs ih =>
    rcases Option.isSome_iff_exists.mp
        (addLines_isSome_of_resolvable r.route orders
          (h r (List.mem_cons_self r rs))) with ⟨ar, har⟩
    rcases ih (fun x hx i hi => h x (List.mem_cons_of_mem r hx) i hi)
      with ⟨v, hv, hlen, hall⟩
    refine ⟨OutputFile.routeFile r.cost_constraint_ratio r.chain_strength
        r.trial r.relative_cost :: v, ?_, ?_, ?_⟩
    · unfold visualiseDeliveries at hv ⊢
      unfold createGraph at hv ⊢
      rw [List.mapM_cons, har, hv]
      rfl
    · simp [hlen]
    · intro o ho
      rcases List.mem_cons.mp ho with ho | ho
      · rw [ho]
        rfl
      · exact hall o ho

/-- C8: for an input table with exactly the two distinct cells `k1` (all
successes) and `k2` (all failures), both populated, and routes whose ids all
resolve, the driver yields a 1-row average table, a 1-row best table, a 1-row
failures table, three heatmaps (`avg`, `best`, `fails`), two contour plots
(`avg` and `best`; none for failures), and one route image per input row. -/
theorem postProcess_two_cells (df : List TrialRecord) (orders : List (ℤ × ℝ × ℝ))
    (out : String) (k1 k2 : ℚ × ℚ) (hne : k1 ≠ k2)
    (hkeys : ∀ r ∈ df, recKey r = k1 ∨ recKey r = k2)
    (hk1 : ∀ r ∈ df, recKey r = k1 → r.relative_cost ≠ -1)
    (hk2 : ∀ r ∈ df, recKey r = k2 → r.relative_cost = -1)
    (h1 : ∃ r ∈ df, recKey r = k1) (h2 : ∃ r ∈ df, recKey r = k2)
    (hroutes : ∀ r ∈ df, ∀ i ∈ r.route, (ordersLookup orders i).isSome) :
    (average (df.filter (fun r => decide (r.relative_cost ≠ -1)))).length = 1 ∧
    (best (df.filter (fun r => decide (r.relative_cost ≠ -1)))).length = 1 ∧
    (∃ t, failedOccurences df = some t ∧ t.length = 1) ∧
    (∃ outs, postProcess df orders out = some outs ∧
      (outs.filter isHeatmapFile).length = 3 ∧
      (outs.filter isContourFile).length = 2 ∧
      (outs.filter isRouteFile).length = df.length) := by
  have hsmem : ∀ r : TrialRecord,
      r ∈ df.filter (fun r => decide (r.relative_cost ≠ -1)) ↔
        (r ∈ df ∧ r.relative_cost ≠ -1) := by
    intro r
    rw [List.mem_filter, decide_eq_true_eq]
  have hsuc_keys : ∀ r ∈ df.filter (fun r => decide (r.relative_cost ≠ -1)),
      recKey r = k1 := by
    intro r hr
    rw [hsmem] at hr
    rcases hkeys r hr.1 with h | h
    · exact h
    · exact absurd (hk2 r hr.1 h) hr.2
  have hsuc_ne : df.filter (fun r => decide (r.relative_cost ≠ -1)) ≠ [] := by
    rcases h1 with ⟨r1, hr1, hr1k⟩
    exact List.ne_nil_of_mem ((hsmem r1).mpr ⟨hr1, hk1 r1 hr1 hr1k⟩)
  have hGK : groupKeys (df.filter (fun r => decide (r.relative_cost ≠ -1))) = [k1] :=
    groupKeys_const _ k1 hsuc_ne hsuc_keys
  have havg : ∃ x, average (df.filter (fun r => decide (r.relative_cost ≠ -1)))
      = [x] := by
    unfold average
    rw [hGK]
    exact ⟨_, rfl⟩
  rcases havg with ⟨xa, hxa⟩
  have hGsucc : groupOf (df.filter (fun r => decide (r.relative_cost ≠ -1))) k1
      = df.filter (fun r => decide (r.relative_cost ≠ -1)) := by
    unfold groupOf
    exact List.filter_eq_self.mpr (fun a ha => decide_eq_true (hsuc_keys a ha))
  have hbest : ∃ y, best (df.filter (fun r => decide (r.relative_cost ≠ -1)))
      = [y] := by
    rcases hc : df.filter (fun r => decide (r.relative_cost ≠ -1)) with _ | ⟨s, ss⟩
    · exact absurd hc hsuc_ne
    · refine ⟨ss.foldl pickMin s, ?_⟩
      unfold best
      rw [hGK]
      exact filterMap_singleton_some _ _ _ (by rw [hGsucc, hc]; rfl)
  rcases hbest with ⟨yb, hyb⟩
  have hfmem : ∀ r : TrialRecord,
      r ∈ df.filter (fun r => decide (r.relative_cost = -1)) ↔
        (r ∈ df ∧ r.relative_cost = -1) := by
    intro r
    rw [List.mem_filter, decide_eq_true_eq]
  have hfail_keys : ∀ r ∈ df.filter (fun r => decide (r.relative_cost = -1)),
      recKey r = k2 := by
    intro r hr
    rw [hfmem] at hr
    rcases hkeys r hr.1 with h | h
    · exact absurd hr.2 (hk1 r hr.1 h)
    · exact h
  have hfail_ne : df.filter (fun r => decide (r.relative_cost = -1)) ≠ [] := by
    rcases h2 with ⟨r2, hr2, hr2k⟩
    exact List.ne_nil_of_mem ((hfmem r2).mpr ⟨hr2, hk2 r2 hr2 hr2k⟩)
  have hFK : groupKeys (df.filter (fun r => decide (r.relative_cost = -1))) = [k2] :=
    groupKeys_const _ k2 hfail_ne hfail_keys
  have hfo : failedOccurences df = some
      [(k2.1, k2.2,
        (groupOf (df.filter (fun r => decide (r.relative_cost = -1))) k2).length)] := by
    unfold failedOccurences
    rw [if_neg (by rw [List.isEmpty_iff]; exact hfail_ne), hFK]
    rfl
  have hpa : (pivot (average
      (df.filter (fun r => decide (r.relative_cost ≠ -1))))).isSome := by
    rw [hxa]
    exact pivot_singleton_isSome xa
  have hpb : (pivot ((best (df.filter (fun r => decide (r.relative_cost ≠ -1)))).map
      (fun r => (r.cost_constraint_ratio, r.chain_strength, r.relative_cost)))).isSome := by
    rw [hyb]
    exact pivot_singleton_isSome _
  have hpf : (pivot (([(k2.1, k2.2,
      (groupOf (df.filter (fun r => decide (r.relative_cost = -1))) k2).length)]
        : List (ℚ × ℚ × ℕ)).map (fun r => (r.1, r.2.1, (r.2.2 : ℚ))))).isSome :=
    pivot_singleton_isSome _
  have hA := averageOutputs_of_pivot _ out hpa
  have hB := bestOutputs_of_pivot _ out hpb
  have hF := failOutputs_of_table df out _ hfo hpf
  rcases visualiseDeliveries_spec df orders hroutes with ⟨v, hv, hvlen, hvall⟩
  have hvheat : v.filter isHeatmapFile = [] := by
    rw [List.filter_eq_nil]
    intro o ho
    have := hvall o ho
    cases o <;> simp_all [isRouteFile, isHeatmapFile]
  have hvcont : v.filter isContourFile = [] := by
    rw [List.filter_eq_nil]
    intro o ho
    have := hvall o ho
    cases o <;> simp_all [isRouteFile, isContourFile]
  have hvroute : v.filter isRouteFile = v :=
    List.filter_eq_self.mpr hvall
  refine ⟨by rw [hxa]; rfl, by rw [hyb]; rfl, ⟨_, hfo, rfl⟩, ?_⟩
  refine ⟨[OutputFile.heatmapFile "avg" out, OutputFile.contourFile "avg" out]
      ++ [OutputFile.heatmapFile "best" out, OutputFile.contourFile "best" out]
      ++ [OutputFile.heatmapFile "fails" out] ++ v, ?_, ?_, ?_, ?_⟩
  · unfold postProcess
    simp only [hA, hB, hF, hv, Option.some_bind]
    rfl
  · simp [List.filter_append, hvheat, isHeatmapFile, isContourFile]
  · simp [List.filter_append, hvcont, isHeatmapFile, isContourFile]
  · simp [List.filter_append, hvroute, isHeatmapFile, isContourFile, isRouteFile,
      hvlen]

/-- C8 witness: a two-row table with one successful row in cell `(1, 1)` and
one failed row in cell `(2, 2)`, over locations `{1 ↦ (0, 0), 2 ↦ (0, 1)}`. -/
theorem postProcess_two_cells_witness :
    (average (([⟨1, 1, 0, 10, [1, 2]⟩, ⟨2, 2, 0, -1, [1]⟩] : List TrialRecord).filter
        (fun r => decide (r.relative_cost ≠ -1)))).length = 1 ∧
    (best (([⟨1, 1, 0, 10, [1, 2]⟩, ⟨2, 2, 0, -1, [1]⟩] : List TrialRecord).filter
        (fun r => decide (r.relative_cost ≠ -1)))).length = 1 ∧
    (∃ t, failedOccurences [⟨1, 1, 0, 10, [1, 2]⟩, ⟨2, 2, 0, -1, [1]⟩] = some t ∧
      t.length = 1) ∧
    (∃ outs, postProcess [⟨1, 1, 0, 10, [1, 2]⟩, ⟨2, 2, 0, -1, [1]⟩]
        [(1, (0, 0)), (2, (0, 1))] "run" = some outs ∧
      (outs.filter isHeatmapFile).length = 3 ∧
      (outs.filter isContourFile).length = 2 ∧
      (outs.filter isRouteFile).length
        = ([⟨1, 1, 0, 10, [1, 2]⟩, ⟨2, 2, 0, -1, [1]⟩] : List TrialRecord).length) :=
  postProcess_two_cells [⟨1, 1, 0, 10, [1, 2]⟩, ⟨2, 2, 0, -1, [1]⟩]
    [(1, (0, 0)), (2, (0, 1))] "run" (1, 1) (2, 2)
    (by decide) (by decide) (by decide) (by decide) (by decide) (by decide)
    (by decide)

end QPP
